import Mathlib

/-!
Shallow embedding of the gh-viewer core (`src/unnamed/part_000`) and proofs
about its result-aggregation layer: repository discovery with priority
merging, code-search snippet reconstruction, file reading with range
extraction and a byte-size guard, glob caching, commit compare, and
limit/offset normalization.

JavaScript strings are modelled as `List Char` (one entry per Unicode
scalar value) so that every string operation is a structurally recursive,
kernel-computable function.  JavaScript numbers appearing as limits and
offsets are modelled by `JsNum` (a rational or NaN); GitHub star counts
and search scores are modelled as `Nat` and `Option ℚ` respectively.
`undefined`/`null` payload fields are modelled as `Option`.
-/

namespace GhViewer

/-- A JavaScript string: the list of its characters. -/
abbrev JSStr := List Char

/-- A JavaScript number argument: either NaN or a (finite) rational.
Infinities are not modelled; no claim exercises them. -/
inductive JsNum where
  | nan : JsNum
  | num : ℚ → JsNum
deriving DecidableEq

/-- Whitespace test used by `trim` and `split(/\s+/)`.  The ASCII subset of
the JavaScript `\s` class; the source is only ever exercised on ASCII
whitespace. -/
def isWsChar (c : Char) : Bool :=
  c = ' ' || c = '\t' || c = '\n' || c = '\r'

/-- Model of `String.prototype.trim`. -/
def jsTrim (s : JSStr) : JSStr :=
  ((s.dropWhile isWsChar).reverse.dropWhile isWsChar).reverse

/-- Model of `String.prototype.toLowerCase` (ASCII case folding, matching
`Char.toLower`). -/
def jsToLower (s : JSStr) : JSStr :=
  s.map Char.toLower

/-- Model of `haystack.includes(needle)`: `needle` occurs contiguously in
`haystack`. -/
def containsSeq (hay needle : JSStr) : Bool :=
  if needle.isPrefixOf hay then true
  else
    match hay with
    | [] => false
    | _ :: t => containsSeq t needle

/-- Model of `s.split(sep)` for a one-character separator `sep`. -/
def jsSplitOnChar (sep : Char) : JSStr → List JSStr
  | [] => [[]]
  | c :: rest =>
    let r := jsSplitOnChar sep rest
    if c = sep then [] :: r
    else
      match r with
      | [] => [[c]]
      | h :: t => (c :: h) :: t

/-- Model of `pattern.split(/\s+/).filter((t) => t.length > 0)`: the maximal
non-whitespace runs of the input.  `cur` accumulates the current run in
reverse. -/
def splitWsAux : JSStr → JSStr → List JSStr
  | [], cur => if cur.isEmpty then [] else [cur.reverse]
  | c :: rest, cur =>
    if isWsChar c then
      if cur.isEmpty then splitWsAux rest []
      else cur.reverse :: splitWsAux rest []
    else splitWsAux rest (c :: cur)

/-- Maximal non-whitespace runs of a string. -/
def splitWs (s : JSStr) : List JSStr :=
  splitWsAux s []

/-- Model of `text.replace(/\r\n/g, "\n")`. -/
def replaceCRLF : JSStr → JSStr
  | [] => []
  | [c] => [c]
  | a :: b :: rest =>
    if a = '\r' ∧ b = '\n' then '\n' :: replaceCRLF rest
    else a :: replaceCRLF (b :: rest)

/-- Model of `${n}` for a natural number. -/
def natToChars (n : Nat) : JSStr :=
  (toString n).data

/-- Model of `s.padStart(width, c)`. -/
def padStartChars (s : JSStr) (width : Nat) (c : Char) : JSStr :=
  List.replicate (width - s.length) c ++ s

/-- Truthiness of an optional string field: present and non-empty. -/
def optTruthy (o : Option JSStr) : Bool :=
  match o with
  | none => false
  | some s => !s.isEmpty

/-- Lexicographic three-way comparison of character lists, the model of the
sign of `a.localeCompare(b)` (default locale collation is modelled as
code-point order). -/
def listCompareInt : JSStr → JSStr → Int
  | [], [] => 0
  | [], _ :: _ => -1
  | _ :: _, [] => 1
  | a :: as, b :: bs =>
    if a < b then -1 else if b < a then 1 else listCompareInt as bs

/-- Model of `equalsIgnoreCase` (source line 1993): accent-sensitive,
case-insensitive equality, modelled as equality after case folding. -/
def equalsIgnoreCase (a b : JSStr) : Bool :=
  jsToLower a = jsToLower b

/-- Model of `matchesPattern` (source line 1997): every whitespace-separated
term of the pattern occurs case-insensitively in the value. -/
def matchesPattern (value pattern : JSStr) : Bool :=
  let terms := splitWs (jsToLower pattern)
  if terms.isEmpty then true
  else
    let haystack := jsToLower value
    terms.all (fun term => containsSeq haystack term)

/-- Model of `normalizeLimit` (source line 1979). -/
def normalizeLimit (limit : Option JsNum) (fallback mx : Nat) : Nat :=
  match limit with
  | none => fallback
  | some JsNum.nan => fallback
  | some (JsNum.num q) => if q ≤ 0 then fallback else min (⌊q⌋.toNat) mx

/-- Model of `normalizeOffset` (source line 1986). -/
def normalizeOffset (offset : Option JsNum) : Nat :=
  match offset with
  | none => 0
  | some JsNum.nan => 0
  | some (JsNum.num q) => if q ≤ 0 then 0 else (⌊q⌋).toNat

/-- Uniform error type (source class `ViewerError`).  Interpolated details
(byte counts, paths) are elided from the message text. -/
structure ViewerError where
  message : String
deriving DecidableEq

/-- Association-list lookup, the model of `Map.prototype.get`. -/
def assocGet {α : Type} : List (JSStr × α) → JSStr → Option α
  | [], _ => none
  | e :: rest, k => if e.1 = k then some e.2 else assocGet rest k

/-- Association-list insertion, the model of `Map.prototype.set`: an
existing key keeps its insertion position and gets the new value, a new
key is appended (keys are unique by construction, as in a `Map`). -/
def assocSet {α : Type} : List (JSStr × α) → JSStr → α → List (JSStr × α)
  | [], k, v => [(k, v)]
  | e :: rest, k, v =>
    if e.1 = k then (k, v) :: rest else e :: assocSet rest k v

/-- Parsed repository identifier (source interface `RepoTarget`). -/
structure RepoTarget where
  owner : JSStr
  repo : JSStr
deriving DecidableEq

/-- Raw repository payload returned by GitHub (source interface
`GitHubRepoSummary`).  `owner?.login` is flattened into `ownerLogin`
(missing owner and missing login both give `none`, matching the
optional-chaining result `undefined`).  The source field `private` is a
Lean keyword and is rendered `privateFlag`. -/
structure GitHubRepoSummary where
  full_name : Option JSStr := none
  name : Option JSStr := none
  description : Option JSStr := none
  language : Option JSStr := none
  stargazers_count : Option Nat := none
  forks_count : Option Nat := none
  privateFlag : Option Bool := none
  html_url : Option JSStr := none
  default_branch : Option JSStr := none
  topics : Option (List JSStr) := none
  visibility : Option JSStr := none
  ownerLogin : Option JSStr := none
  score : Option ℚ := none
deriving DecidableEq

/-- Normalized repository view (source interface `RepositorySummary`).
The source field `private` is rendered `privateFlag`. -/
structure RepositorySummary where
  name : JSStr
  fullName : JSStr
  description : Option JSStr
  language : Option JSStr
  stars : Nat
  forks : Nat
  privateFlag : Bool
  htmlUrl : JSStr
  defaultBranch : JSStr
  topics : List JSStr
  visibility : Option JSStr
deriving DecidableEq

/-- Model of `mapRepoSummary` (source line 2009). -/
def mapRepoSummary (repo : GitHubRepoSummary) : Option RepositorySummary :=
  let fullName := repo.full_name.getD []
  if fullName.isEmpty then none
  else
    some
      { name := repo.name.getD fullName
        fullName := fullName
        description := repo.description
        language := repo.language
        stars := repo.stargazers_count.getD 0
        forks := repo.forks_count.getD 0
        privateFlag := repo.privateFlag.getD false
        htmlUrl := repo.html_url.getD (("https://github.com/").data ++ fullName)
        defaultBranch := repo.default_branch.getD (("main").data)
        topics := repo.topics.getD []
        visibility := repo.visibility }

/-- One entry of the `collected` map inside `searchRepositories`
(source line 1382). -/
structure Candidate where
  summary : RepositorySummary
  priority : Nat
  stars : Nat
  score : Option ℚ
deriving DecidableEq

/-- Organization filter guard of `addRepository` (source line 1432):
rejects when an organization filter is active, the payload carries an
owner login, and the login differs case-insensitively. -/
def orgGuard (organization : Option JSStr) (repo : GitHubRepoSummary) : Bool :=
  optTruthy organization && optTruthy repo.ownerLogin &&
    !equalsIgnoreCase (repo.ownerLogin.getD []) (organization.getD [])

/-- Pattern filter guard of `addRepository` (source line 1435). -/
def patternGuard (pattern : Option JSStr) (summary : RepositorySummary) : Bool :=
  optTruthy pattern && !matchesPattern summary.fullName (pattern.getD []) &&
    !matchesPattern summary.name (pattern.getD [])

/-- Language mismatch guard of `addRepository` (source line 1438): a
present language that does not match the filter case-insensitively. -/
def langMismatchGuard (language : Option JSStr) (summary : RepositorySummary) : Bool :=
  optTruthy language && optTruthy summary.language &&
    !equalsIgnoreCase (summary.language.getD []) (language.getD [])

/-- Missing-language guard of `addRepository` (source line 1441): rejects a
candidate with no language information when a language filter is active and
the candidate's priority is strictly positive. -/
def langMissingGuard (language : Option JSStr) (summary : RepositorySummary)
    (priority : Nat) : Bool :=
  optTruthy language && !optTruthy summary.language && decide (0 < priority)

/-- Deduplicating insertion tail of `addRepository` (source line 1444): the
first candidate for a full name is kept and is replaced only by a later
candidate with a strictly lower priority number. -/
def dedupInsert (collected : List (JSStr × Candidate)) (summary : RepositorySummary)
    (priority : Nat) (score : Option ℚ) : List (JSStr × Candidate) :=
  let cand : Candidate :=
    { summary := summary, priority := priority, stars := summary.stars, score := score }
  match assocGet collected summary.fullName with
  | none => assocSet collected summary.fullName cand
  | some existing =>
    if priority < existing.priority then assocSet collected summary.fullName cand
    else collected

/-- Model of `addRepository` (source line 1427).  `pattern`, `organization`
and `language` are the already-trimmed search parameters closed over by the
source closure. -/
def addRepository (pattern organization language : Option JSStr)
    (collected : List (JSStr × Candidate)) (repo : GitHubRepoSummary)
    (priority : Nat) : List (JSStr × Candidate) :=
  match mapRepoSummary repo with
  | none => collected
  | some summary =>
    if orgGuard organization repo then collected
    else if patternGuard pattern summary then collected
    else if langMismatchGuard language summary then collected
    else if langMissingGuard language summary priority then collected
    else dedupInsert collected summary priority repo.score

/-- Search parameters of `searchRepositories` (source interface
`RepositorySearchParams`). -/
structure RepositorySearchParams where
  pattern : Option JSStr := none
  organization : Option JSStr := none
  language : Option JSStr := none
  limit : Option JsNum := none
  offset : Option JsNum := none

/-- Sort comparator of `searchRepositories` (source line 1513): priority
ascending, then stars descending, then score (0 if absent) descending, then
full name by `localeCompare`.  The JavaScript comparator returns a number
whose sign alone is significant; it is modelled as a rational. -/
def compareCandidates (a b : Candidate) : ℚ :=
  if a.priority ≠ b.priority then (a.priority : ℚ) - (b.priority : ℚ)
  else if b.stars ≠ a.stars then (b.stars : ℚ) - (a.stars : ℚ)
  else
    let aScore : ℚ := (a.score.getD 0)
    let bScore : ℚ := (b.score.getD 0)
    if bScore ≠ aScore then bScore - aScore
    else ((listCompareInt a.summary.fullName b.summary.fullName : Int) : ℚ)

/-- Boolean "sorts no later than" relation induced by the comparator; the
stable sort of the source is modelled by `List.mergeSort` with it. -/
def candLe (a b : Candidate) : Bool :=
  decide (compareCandidates a b ≤ 0)

/-- The `collected` map produced by folding `addRepository` over the
sequence of candidate submissions.  `feed` is the sequence of
`(payload, priority)` pairs in the order the three channel loops of
`searchRepositories` (org listing / user listing at priority 0, search
fallback at priority 1) submit them. -/
def collectedMap (pattern organization language : Option JSStr)
    (feed : List (GitHubRepoSummary × Nat)) : List (JSStr × Candidate) :=
  feed.foldl (fun acc rp => addRepository pattern organization language acc rp.1 rp.2) []

/-- Pure core of `searchRepositories` (source line 1374): trim the
parameters, merge the feed through `addRepository`, sort the collected
values with the source comparator, slice `[offset, offset+limit)` and
project the summaries. -/
def searchRepositoriesMerge (params : RepositorySearchParams)
    (feed : List (GitHubRepoSummary × Nat)) : List RepositorySummary :=
  let limit := normalizeLimit params.limit 30 100
  let offset := normalizeOffset params.offset
  let pattern := params.pattern.map jsTrim
  let organization := params.organization.map jsTrim
  let language := params.language.map jsTrim
  let collected := collectedMap pattern organization language feed
  let sorted := (collected.map (fun e => e.2)).mergeSort candLe
  ((sorted.drop offset).take limit).map (fun entry => entry.summary)

/-- A contiguous 1-based window of file lines around a match (source
interface `CodeSearchSnippet`). -/
structure CodeSearchSnippet where
  startLine : Nat
  endLine : Nat
  lines : List JSStr
deriving DecidableEq

/-- Model of `createSnippetsFromLines` (source line 1894).  `index - context`
in `Nat` equals the source's `Math.max(0, index - context)`, and
`slice(start, endExclusive)` is `drop start` then `take (endExclusive -
start)`.  The `context` parameter defaults to 2 as in the source. -/
def createSnippetsFromLines (fileLines : List JSStr) (indices : List Nat)
    (context : Nat := 2) : List CodeSearchSnippet :=
  if indices.isEmpty then []
  else
    indices.map fun index =>
      let start := index - context
      let endExclusive := min fileLines.length (index + context + 1)
      { startLine := start + 1
        endLine := max (start + 1) endExclusive
        lines := (fileLines.drop start).take (endExclusive - start) }

/-- Model of `addLineNumbers` (source line 1915): prefix each line with its
line number right-aligned to width 6 and a single space. -/
def addLineNumbers (lines : List JSStr) (start : Nat) : List JSStr :=
  lines.mapIdx fun index line =>
    padStartChars (natToChars (start + index)) 6 ' ' ++ ' ' :: line

/-- 1-based inclusive line range (source interface `ReadRange`; the field
`end` is a Lean keyword and is rendered `stop`).  The CLI range parser
guarantees `1 ≤ start ≤ end`; the fields are the parsed naturals. -/
structure ReadRange where
  start : Nat
  stop : Nat
deriving DecidableEq

/-- Options of `readFile` (source interface `ReadOptions`, minus `ref`,
which only routes the network request). -/
structure ReadOptions where
  range : Option ReadRange := none
  includeLineNumbers : Option Bool := none
deriving DecidableEq

/-- Model of `extractRange` (source line 2089): walk `lineNumber` from
`start` to `end`, stopping at the first index past the end of the file
(`takeWhile` is the loop's `break`, valid because the indices increase),
and collect `lines[lineNumber - 1]`. -/
def extractRange (lines : List JSStr) (range : ReadRange) : List JSStr :=
  ((List.range' range.start (range.stop + 1 - range.start)).takeWhile
      (fun ln => decide (ln - 1 < lines.length))).map
    (fun ln => lines.getD (ln - 1) [])

/-- UTF-8 byte count of a character list: the model of `buffer.length` for
the decoded content (the buffer is assumed to be valid UTF-8, so its byte
count is the byte size of its decoded text). -/
def utf8Length : JSStr → Nat
  | [] => 0
  | c :: rest => c.utf8Size + utf8Length rest

/-- Result of the pure core of `readFile`: the returned lines and the
echoed range. -/
structure ReadResultLines where
  range : Option ReadRange
  lines : List JSStr
deriving DecidableEq

/-- Model of `text.replace(/\r\n/g, "\n").split("\n")` (source line 1596). -/
def splitLines (text : JSStr) : List JSStr :=
  jsSplitOnChar '\n' (replaceCRLF text)

/-- Pure core of `readFile` (source line 1570) starting from the decoded
content: the 204800-byte size guard when no range is given, CRLF
normalization, line splitting, range extraction and line numbering. -/
def readFileCore (content : JSStr) (options : ReadOptions) :
    Except ViewerError ReadResultLines :=
  if options.range = none ∧ 204800 < utf8Length content then
    Except.error ⟨"File too large; use an explicit range to limit output."⟩
  else
    let lines := splitLines content
    let selected :=
      match options.range with
      | some r => extractRange lines r
      | none => lines
    let lineOffset :=
      match options.range with
      | some r => r.start
      | none => 1
    let outputLines :=
      if options.includeLineNumbers.getD false then addLineNumbers selected lineOffset
      else selected
    Except.ok { range := options.range, lines := outputLines }

/-- Cached value per `(repo, ref, pattern)` key (source interface
`TreeCacheEntry`; the source field `matches` is a Lean keyword and is
rendered `matchList`). -/
structure TreeCacheEntry where
  matchList : List JSStr
  truncated : Bool
deriving DecidableEq

/-- One entry of a git tree (source interface `GitHubTreeEntry`). -/
structure GitHubTreeEntry where
  path : JSStr
  type : JSStr
deriving DecidableEq

/-- Tree payload (source interface `GitHubTreeResponse`). -/
structure GitHubTreeResponse where
  tree : Option (List GitHubTreeEntry) := none
  truncated : Option Bool := none
deriving DecidableEq

/-- Result of `globFiles` (source interface `GlobResult`; the source field
`matches` is rendered `matchList`). -/
structure GlobResult where
  pattern : JSStr
  ref : JSStr
  matchList : List JSStr
  truncated : Bool
deriving DecidableEq

/-- Cache key `owner/repo@ref:pattern` of `globFiles` (source line 1616). -/
def globCacheKey (repo : RepoTarget) (ref pattern : JSStr) : JSStr :=
  repo.owner ++ ("/").data ++ repo.repo ++ ("@").data ++ ref ++ (":").data ++ pattern

/-- Model of `globFiles` (source line 1610) with an explicit `ref` (the
claim fixes identical `(repo, ref, pattern)`, so the default-branch lookup
is not exercised).  `matcher` abstracts the third-party `minimatch`
predicate, `env` abstracts the remote tree endpoint.  Returns the result,
the updated tree cache, and the number of tree fetches issued. -/
def globFiles (matcher : JSStr → JSStr → Bool)
    (env : RepoTarget → JSStr → GitHubTreeResponse)
    (treeCache : List (JSStr × TreeCacheEntry)) (repo : RepoTarget)
    (pattern ref : JSStr) :
    Except ViewerError GlobResult × List (JSStr × TreeCacheEntry) × Nat :=
  let cacheKey := globCacheKey repo ref pattern
  match assocGet treeCache cacheKey with
  | some cached =>
    (Except.ok { pattern := pattern, ref := ref, matchList := cached.matchList,
                 truncated := cached.truncated }, treeCache, 0)
  | none =>
    match (env repo ref).tree with
    | none => (Except.error ⟨"No tree data returned for ref."⟩, treeCache, 1)
    | some entries =>
      let found :=
        (entries.filter (fun entry =>
          decide (entry.type = ("blob").data) && matcher entry.path pattern)).map
          (fun entry => entry.path)
      let cache2 := assocSet treeCache cacheKey
        { matchList := found, truncated := (env repo ref).truncated.getD false }
      match assocGet cache2 cacheKey with
      | some cached =>
        (Except.ok { pattern := pattern, ref := ref, matchList := cached.matchList,
                     truncated := cached.truncated }, cache2, 1)
      | none => (Except.error ⟨"Failed to cache glob results."⟩, cache2, 1)

/-- Model of `parseRepo` (source line 1967): the slug must split on `/`
into exactly two non-empty parts. -/
def parseRepo (slug : JSStr) : Except ViewerError RepoTarget :=
  match jsSplitOnChar '/' slug with
  | [a, b] =>
    if a.isEmpty || b.isEmpty then
      Except.error ⟨"Invalid repo slug. Use owner/name."⟩
    else Except.ok { owner := a, repo := b }
  | _ => Except.error ⟨"Invalid repo slug. Use owner/name."⟩

/-- Model of `stripHighlights` (source line 2029), i.e.
`value.replace(/<\/?em>/g, "")`: a single left-to-right scan removing each
occurrence of `</em>` or `<em>`. -/
def stripHighlights : JSStr → JSStr
  | '<' :: '/' :: 'e' :: 'm' :: '>' :: rest => stripHighlights rest
  | '<' :: 'e' :: 'm' :: '>' :: rest => stripHighlights rest
  | c :: rest => c :: stripHighlights rest
  | [] => []

/-- Model of `.replace(/…/g, " ")` (source line 1875): horizontal
ellipsis characters become spaces. -/
def replaceEllipsis (s : JSStr) : JSStr :=
  s.map fun c => if c = Char.ofNat 0x2026 then ' ' else c

/-- Model of `findLineIndicesInFile` (source line 2033): the first line
(scanning top to bottom) containing the trimmed needle case-insensitively,
as a zero- or one-element list of 0-based indices. -/
def findLineIndicesInFile (fileLines : List JSStr) (needle : JSStr) : List Nat :=
  let trimmed := jsTrim needle
  if trimmed.isEmpty then []
  else
    let lowerNeedle := jsToLower trimmed
    match fileLines.findIdx? (fun line => containsSeq (jsToLower line) lowerNeedle) with
    | some index => [index]
    | none => []

/-- Remote text-match payload (source interface `GitHubTextMatch`; the
source field `matches` is a Lean keyword and is rendered `subMatches`,
each entry being the optional `text` of a `{ text?: string }` record). -/
structure GitHubTextMatch where
  fragment : Option JSStr := none
  subMatches : Option (List (Option JSStr)) := none
deriving DecidableEq

/-- Insertion-ordered set insertion of a batch of indices (the model of
adding to the `Set` in `collectMatchLineIndices`). -/
def insertIndices (acc : List Nat) (hits : List Nat) : List Nat :=
  hits.foldl (fun l i => if i ∈ l then l else l ++ [i]) acc

/-- Model of `collectMatchLineIndices` (source line 1866): gather the first
containment hit of every highlighted sub-match and of every non-empty
trimmed fragment line into a set, then sort ascending. -/
def collectMatchLineIndices (textMatches : List GitHubTextMatch)
    (fileLines : List JSStr) : List Nat :=
  let indices := textMatches.foldl
    (fun acc m =>
      let acc1 := (m.subMatches.getD []).foldl
        (fun a fm =>
          match fm with
          | some t =>
            if t.isEmpty then a
            else insertIndices a (findLineIndicesInFile fileLines t)
          | none => a) acc
      match m.fragment with
      | some frag =>
        if frag.isEmpty then acc1
        else
          let fragmentLines :=
            ((jsSplitOnChar '\n' (replaceEllipsis (stripHighlights frag))).map
                jsTrim).filter (fun l => !l.isEmpty)
          fragmentLines.foldl
            (fun a fragmentLine =>
              insertIndices a (findLineIndicesInFile fileLines fragmentLine)) acc1
      | none => acc1)
    []
  indices.mergeSort (fun a b => decide (a ≤ b))

/-- Options of `searchCode` (source interface `CodeSearchOptions`, minus
nothing: `context` is the snippet window radius). -/
structure CodeSearchOptions where
  pattern : JSStr
  path : Option JSStr := none
  limit : Option JsNum := none
  offset : Option JsNum := none
  context : Option Nat := none

/-- Code-search hit payload (source interface `GitHubCodeSearchItem`;
`repository.full_name` is flattened to `repository_full_name`). -/
structure GitHubCodeSearchItem where
  path : JSStr
  sha : JSStr
  html_url : JSStr
  score : Option ℚ := none
  repository_full_name : JSStr
  text_matches : Option (List GitHubTextMatch) := none

/-- Normalized code-search result (source interface `CodeSearchResultItem`;
the nested `repository` record is flattened). -/
structure CodeSearchResultItem where
  owner : JSStr
  repo : JSStr
  repositoryFullName : JSStr
  path : JSStr
  ref : JSStr
  language : Option JSStr
  score : Option ℚ
  snippets : List CodeSearchSnippet
  htmlUrl : JSStr

/-- Model of the query assembly of `searchCode` (source line 1652): the
trimmed pattern, a `repo:` qualifier unless the pattern already contains
it, and an optional `path:` qualifier, joined by spaces. -/
def buildCodeQuery (repo : RepoTarget) (trimmedPattern : JSStr)
    (path : Option JSStr) : JSStr :=
  let repoQualifier := ("repo:").data ++ repo.owner ++ ("/").data ++ repo.repo
  let parts := [trimmedPattern]
  let parts :=
    if containsSeq trimmedPattern repoQualifier then parts
    else parts ++ [repoQualifier]
  let parts :=
    if optTruthy path then parts ++ [("path:").data ++ path.getD []]
    else parts
  List.intercalate (" ").data parts

/-- Shared pagination loop of `searchCode` and `searchCommits` (source
lines 1668 and 1769): fetch pages while fewer than `toCollect` items are
collected, stopping on an empty page or a short page.  `env page perPage`
is the page of items the remote returns; the second component counts the
page fetches issued.  `fuel` bounds the recursion; every continuing
iteration collects at least `perPage ≥ 1` items, so `toCollect + 1` fuel
is never exhausted. -/
def collectPages {α : Type} (env : Nat → Nat → List α) (toCollect : Nat) :
    Nat → Nat → List α → List α × Nat
  | 0, _, collected => (collected, 0)
  | fuel + 1, page, collected =>
    if toCollect ≤ collected.length then (collected, 0)
    else
      let perPage := min 100 (toCollect - collected.length)
      let items := env page perPage
      if items.isEmpty then (collected, 1)
      else
        let collected2 := collected ++ items
        if items.length < perPage then (collected2, 1)
        else
          let result := collectPages env toCollect fuel (page + 1) collected2
          (result.1, result.2 + 1)

/-- Per-item reconstruction step of `searchCode` (source line 1699): parse
the owner and name out of the hit's repository full name, resolve the
file's lines through the per-call file cache (a failed blob fetch caches an
empty line list), locate the match lines and synthesize the snippets.  The
accumulator carries the prepared results, the file cache, and the number of
blob fetches issued. -/
def searchCodeStep (blobEnv : JSStr → JSStr → Except ViewerError (List JSStr))
    (repo : RepoTarget) (context : Option Nat)
    (acc : List CodeSearchResultItem × List (JSStr × List JSStr) × Nat)
    (item : GitHubCodeSearchItem) :
    List CodeSearchResultItem × List (JSStr × List JSStr) × Nat :=
  let prepared := acc.1
  let fileCache := acc.2.1
  let fetches := acc.2.2
  let parts := jsSplitOnChar '/' item.repository_full_name
  let owner := parts.getD 0 repo.owner
  let name := parts.getD 1 repo.repo
  let cacheKey := owner ++ ("/").data ++ name ++ (":").data ++ item.sha
  let resolved :=
    match assocGet fileCache cacheKey with
    | some fileLines => (fileLines, fileCache, 0)
    | none =>
      match blobEnv (owner ++ ("/").data ++ name) item.sha with
      | Except.ok fileLines => (fileLines, assocSet fileCache cacheKey fileLines, 1)
      | Except.error _ => ([], assocSet fileCache cacheKey [], 1)
  let fileLines := resolved.1
  let matchLines := collectMatchLineIndices (item.text_matches.getD []) fileLines
  let snippets := createSnippetsFromLines fileLines matchLines (context.getD 2)
  (prepared ++
      [{ owner := owner, repo := name,
         repositoryFullName := item.repository_full_name, path := item.path,
         ref := item.sha, language := none, score := item.score,
         snippets := snippets, htmlUrl := item.html_url }],
    resolved.2.1, fetches + resolved.2.2)

/-- Model of `searchCode` (source line 1645).  `searchEnv query page
perPage` abstracts the code-search endpoint, `blobEnv repoSlug sha` the
blob endpoint (its errors are the `ViewerError`s tolerated per file).
Returns the result and the number of network requests issued. -/
def searchCode (searchEnv : JSStr → Nat → Nat → List GitHubCodeSearchItem)
    (blobEnv : JSStr → JSStr → Except ViewerError (List JSStr))
    (repo : RepoTarget) (options : CodeSearchOptions) :
    Except ViewerError (List CodeSearchResultItem) × Nat :=
  let limit := normalizeLimit options.limit 30 100
  let offset := normalizeOffset options.offset
  let toCollect := offset + limit
  let trimmedPattern := jsTrim options.pattern
  if trimmedPattern.isEmpty then
    (Except.error ⟨"Code search requires a non-empty pattern."⟩, 0)
  else
    let query := buildCodeQuery repo trimmedPattern options.path
    let paged := collectPages (searchEnv query) toCollect (toCollect + 1) 1 []
    let collected := paged.1
    if collected.isEmpty then (Except.ok [], paged.2)
    else
      let retained := (collected.drop offset).take limit
      let folded := retained.foldl (searchCodeStep blobEnv repo options.context)
        ([], [], 0)
      (Except.ok folded.1, paged.2 + folded.2.2)

/-- Options of `searchCommits` (source interface `CommitSearchOptions`;
`since`/`until` are rendered `sinceDate`/`untilDate`). -/
structure CommitSearchOptions where
  query : Option JSStr := none
  author : Option JSStr := none
  path : Option JSStr := none
  sinceDate : Option JSStr := none
  untilDate : Option JSStr := none
  limit : Option JsNum := none
  offset : Option JsNum := none

/-- Optional commit stats payload. -/
structure CommitStats where
  additions : Option Nat := none
  deletions : Option Nat := none
  total : Option Nat := none
deriving DecidableEq

/-- Commit-search hit payload (source interface `GitHubCommitSearchItem`;
the nested optional records are flattened, optional chaining collapsing to
`none`). -/
structure GitHubCommitSearchItem where
  sha : JSStr
  html_url : JSStr
  commit_message : Option JSStr := none
  commit_author_name : Option JSStr := none
  commit_author_email : Option JSStr := none
  commit_author_date : Option JSStr := none
  author_login : Option JSStr := none
  stats : Option CommitStats := none
deriving DecidableEq

/-- Normalized commit record (source interface `CommitSearchResultItem`). -/
structure CommitSearchResultItem where
  sha : JSStr
  message : JSStr
  authorName : Option JSStr
  authorEmail : Option JSStr
  date : Option JSStr
  htmlUrl : JSStr
  stats : Option CommitStats
deriving DecidableEq

/-- Model of the query assembly of `searchCommits` (source line 1754). -/
def buildCommitQuery (repo : RepoTarget) (options : CommitSearchOptions) : JSStr :=
  let parts := [("repo:").data ++ repo.owner ++ ("/").data ++ repo.repo]
  let parts := if optTruthy options.query then parts ++ [options.query.getD []] else parts
  let parts :=
    if optTruthy options.author then parts ++ [("author:").data ++ options.author.getD []]
    else parts
  let parts :=
    if optTruthy options.path then parts ++ [("path:").data ++ options.path.getD []]
    else parts
  let parts :=
    if optTruthy options.sinceDate then
      parts ++ [("committer-date:>=").data ++ options.sinceDate.getD []]
    else parts
  let parts :=
    if optTruthy options.untilDate then
      parts ++ [("committer-date:<=").data ++ options.untilDate.getD []]
    else parts
  List.intercalate (" ").data parts

/-- Per-hit normalization of `searchCommits` (source line 1789). -/
def mapCommitItem (item : GitHubCommitSearchItem) : CommitSearchResultItem :=
  { sha := item.sha
    message := item.commit_message.getD []
    authorName :=
      match item.commit_author_name with
      | some n => some n
      | none => item.author_login
    authorEmail := item.commit_author_email
    date := item.commit_author_date
    htmlUrl := item.html_url
    stats := item.stats }

/-- Model of `searchCommits` (source line 1744): paginate to
`offset + limit`, slice, and normalize each hit. -/
def searchCommits (env : JSStr → Nat → Nat → List GitHubCommitSearchItem)
    (repo : RepoTarget) (options : CommitSearchOptions) :
    List CommitSearchResultItem × Nat :=
  let limit := normalizeLimit options.limit 50 100
  let offset := normalizeOffset options.offset
  let toCollect := offset + limit
  let query := buildCommitQuery repo options
  let paged := collectPages (env query) toCollect (toCollect + 1) 1 []
  (((paged.1.drop offset).take limit).map mapCommitItem, paged.2)

/-- Compare options (source interface `CompareOptions`). -/
structure CompareOptions where
  includePatches : Option Bool := none
deriving DecidableEq

/-- Per-file compare payload (source interface `GitHubCompareFile`). -/
structure GitHubCompareFile where
  sha : Option JSStr := none
  filename : JSStr
  status : JSStr
  additions : Nat
  deletions : Nat
  changes : Nat
  patch : Option JSStr := none
  previous_filename : Option JSStr := none
deriving DecidableEq

/-- Normalized per-file change record (source interface
`CompareFileChange`). -/
structure CompareFileChange where
  sha : Option JSStr
  filename : JSStr
  status : JSStr
  additions : Nat
  deletions : Nat
  changes : Nat
  patch : Option JSStr
  previousFilename : Option JSStr
deriving DecidableEq

/-- Compare payload (source interface `GitHubCompareResponse`; the commit
list is reduced to its shas, which is all the source reads). -/
structure GitHubCompareResponse where
  commits : Option (List JSStr) := none
  ahead_by : Option Nat := none
  behind_by : Option Nat := none
  total_commits : Option Nat := none
  files : Option (List GitHubCompareFile) := none
deriving DecidableEq

/-- Normalized compare result (source interface `CompareCommitsResult`). -/
structure CompareCommitsResult where
  base : JSStr
  head : JSStr
  aheadBy : Nat
  behindBy : Nat
  totalCommits : Nat
  files : List CompareFileChange
deriving DecidableEq

/-- Model of `compareCommits` (source line 1802).  `env` abstracts the
compare endpoint; the second component counts the requests issued.  Patch
text is kept only when `includePatches` is truthy. -/
def compareCommits (env : RepoTarget → JSStr → JSStr → GitHubCompareResponse)
    (repo : RepoTarget) (base head : JSStr) (options : CompareOptions) :
    Except ViewerError CompareCommitsResult × Nat :=
  if base.isEmpty then
    (Except.error ⟨"Base reference is required for compareCommits."⟩, 0)
  else if head.isEmpty then
    (Except.error ⟨"Head reference is required for compareCommits."⟩, 0)
  else
    let data := env repo base head
    let files := (data.files.getD []).map fun file =>
      { sha := file.sha, filename := file.filename, status := file.status,
        additions := file.additions, deletions := file.deletions,
        changes := file.changes,
        patch := if options.includePatches.getD false then file.patch else none,
        previousFilename := file.previous_filename : CompareFileChange }
    (Except.ok
      { base := base, head := head, aheadBy := data.ahead_by.getD 0,
        behindBy := data.behind_by.getD 0,
        totalCommits := data.total_commits.getD ((data.commits.getD []).length),
        files := files }, 1)

/-! ## Shared lemmas -/

/-- Sorting a singleton yields the singleton. -/
theorem mergeSort_single {α : Type} (le : α → α → Bool) (a : α) :
    List.mergeSort [a] le = [a] :=
  List.perm_singleton.mp (List.mergeSort_perm [a] le)

/-- Looking up a key just set returns the value that was set. -/
theorem assocGet_assocSet_self {α : Type} (m : List (JSStr × α)) (k : JSStr) (v : α) :
    assocGet (assocSet m k v) k = some v := by
  induction m with
  | nil => simp [assocGet, assocSet]
  | cons e rest ih => by_cases he : e.1 = k <;> simp [assocGet, assocSet, he, ih]

/-- Length of the discovery output: the requested limit clipped by what the
merge collected past the offset. -/
theorem searchRepositoriesMerge_length (params : RepositorySearchParams)
    (feed : List (GitHubRepoSummary × Nat)) :
    (searchRepositoriesMerge params feed).length =
      min (normalizeLimit params.limit 30 100)
        ((collectedMap (params.pattern.map jsTrim) (params.organization.map jsTrim)
            (params.language.map jsTrim) feed).length - normalizeOffset params.offset) := by
  simp [searchRepositoriesMerge, List.length_take, List.length_drop,
    List.length_mergeSort, List.length_map]

/-- A candidate with no language information always passes the
missing-language guard at priority 0. -/
theorem langMissingGuard_zero (language : Option JSStr) (s : RepositorySummary) :
    langMissingGuard language s 0 = false := by
  simp [langMissingGuard]

/-! ## C1 -/

/-- C1 counterexample: with a language filter active, a priority-0 payload
with no language field is NOT rejected (it reaches the merged result),
while the same payload submitted at priority 1 IS rejected — the converse
of the claim. -/
theorem searchRepositories_missing_language_cex :
    searchRepositoriesMerge { language := some (("TypeScript").data) }
        [({ full_name := some (("o/r").data) }, 0)] ≠ [] ∧
    searchRepositoriesMerge { language := some (("TypeScript").data) }
        [({ full_name := some (("o/r").data) }, 1)] = [] := by
  constructor
  · have h := searchRepositoriesMerge_length
      { language := some (("TypeScript").data) }
      [({ full_name := some (("o/r").data) }, 0)]
    intro hnil
    rw [hnil] at h
    revert h
    decide
  · have h := searchRepositoriesMerge_length
      { language := some (("TypeScript").data) }
      [({ full_name := some (("o/r").data) }, 1)]
    have hz : (searchRepositoriesMerge { language := some (("TypeScript").data) }
        [({ full_name := some (("o/r").data) }, 1)]).length = 0 := by
      rw [h]; decide
    exact List.length_eq_zero.mp hz

/-- C1 (amended): when a language filter is active and a candidate payload
maps to a summary without language information, `addRepository` rejects it
at every strictly positive (search-sourced) priority, while at priority 0
(accessible-channel) the rule does not reject it: if the organization and
pattern guards pass, the candidate proceeds to the deduplicating insert. -/
theorem addRepository_missing_language (pattern organization language : Option JSStr)
    (collected : List (JSStr × Candidate)) (repo : GitHubRepoSummary)
    (s : RepositorySummary)
    (hlang : optTruthy language = true)
    (hmap : mapRepoSummary repo = some s)
    (hmiss : optTruthy s.language = false) :
    (∀ p : Nat, 0 < p →
      addRepository pattern organization language collected repo p = collected) ∧
    (orgGuard organization repo = false → patternGuard pattern s = false →
      addRepository pattern organization language collected repo 0 =
        dedupInsert collected s 0 repo.score) := by
  have hmm : langMismatchGuard language s = false := by
    simp [langMismatchGuard, hmiss]
  constructor
  · intro p hp
    have hmg : langMissingGuard language s p = true := by
      simp [langMissingGuard, hlang, hmiss, hp]
    unfold addRepository
    rw [hmap]
    by_cases h1 : orgGuard organization repo <;>
      by_cases h2 : patternGuard pattern s <;>
        simp [h1, h2, hmm, hmg]
  · intro h1 h2
    unfold addRepository
    rw [hmap]
    simp [h1, h2, hmm, langMissingGuard_zero]

/-- C1 amended witness at a concrete payload. -/
theorem addRepository_missing_language_witness :
    0 < 1 ∧
    addRepository none none (some (("TypeScript").data)) []
      { full_name := some (("o/r").data) } 1 = [] := by
  refine ⟨by decide, ?_⟩
  have h := addRepository_missing_language none none (some (("TypeScript").data)) []
    { full_name := some (("o/r").data) }
    { name := ("o/r").data, fullName := ("o/r").data, description := none,
      language := none, stars := 0, forks := 0, privateFlag := false,
      htmlUrl := ("https://github.com/o/r").data, defaultBranch := ("main").data,
      topics := [], visibility := none }
    (by decide) (by decide) (by decide)
  exact h.1 1 (by decide)

/-! ## C2 -/

/-- C2: deduplication in `addRepository` is keyed by full name and
first/best priority wins.  For a candidate that passes all filters: an
absent key is inserted; a present key is overwritten exactly when the new
priority is strictly lower; and in the concrete two-channel scenario, a
priority-0 (accessible-channel) candidate followed by a priority-1
(search-fallback) candidate with the same full name leaves the priority-0
candidate in the map, regardless of either star count. -/
theorem searchRepositories_dedup (pattern organization language : Option JSStr)
    (collected : List (JSStr × Candidate)) (repo : GitHubRepoSummary) (p : Nat)
    (s : RepositorySummary)
    (hmap : mapRepoSummary repo = some s)
    (h1 : orgGuard organization repo = false)
    (h2 : patternGuard pattern s = false)
    (h3 : langMismatchGuard language s = false)
    (h4 : langMissingGuard language s p = false) :
    (assocGet collected s.fullName = none →
      addRepository pattern organization language collected repo p =
        assocSet collected s.fullName
          { summary := s, priority := p, stars := s.stars, score := repo.score }) ∧
    (∀ existing, assocGet collected s.fullName = some existing →
      (p < existing.priority →
        addRepository pattern organization language collected repo p =
          assocSet collected s.fullName
            { summary := s, priority := p, stars := s.stars, score := repo.score }) ∧
      (existing.priority ≤ p →
        addRepository pattern organization language collected repo p = collected)) ∧
    (∀ (repo1 : GitHubRepoSummary) (s1 : RepositorySummary),
      mapRepoSummary repo1 = some s1 → s1.fullName = s.fullName →
      orgGuard organization repo1 = false → patternGuard pattern s1 = false →
      langMismatchGuard language s1 = false → langMissingGuard language s1 1 = false →
      langMissingGuard language s 0 = false →
      assocGet collected s.fullName = none →
      assocGet (addRepository pattern organization language
          (addRepository pattern organization language collected repo 0) repo1 1)
        s.fullName =
        some { summary := s, priority := 0, stars := s.stars, score := repo.score }) := by
  refine ⟨?_, ?_, ?_⟩
  · intro hnone
    unfold addRepository
    rw [hmap]
    simp [h1, h2, h3, h4, dedupInsert, hnone]
  · intro existing hsome
    constructor
    · intro hlt
      unfold addRepository
      rw [hmap]
      simp [h1, h2, h3, h4, dedupInsert, hsome, hlt]
    · intro hge
      unfold addRepository
      rw [hmap]
      simp [h1, h2, h3, h4, dedupInsert, hsome, Nat.not_lt.mpr hge]
  · intro repo1 s1 hmap1 hname h1b h2b h3b h4b h4z hnone
    have step1 : addRepository pattern organization language collected repo 0 =
        assocSet collected s.fullName
          { summary := s, priority := 0, stars := s.stars, score := repo.score } := by
      unfold addRepository
      rw [hmap]
      simp [h1, h2, h3, h4z, dedupInsert, hnone]
    rw [step1]
    unfold addRepository
    rw [hmap1]
    have hget : assocGet (assocSet collected s.fullName
        { summary := s, priority := 0, stars := s.stars, score := repo.score })
        s1.fullName =
        some { summary := s, priority := 0, stars := s.stars, score := repo.score } := by
      rw [hname]; exact assocGet_assocSet_self collected s.fullName _
    simp [h1b, h2b, h3b, h4b, dedupInsert, hget, hname, assocGet_assocSet_self]

/-- C2 witness: two concrete payloads sharing the full name `o/r`, the
accessible-channel one with 1 star, the search one with 500 stars; the
priority-0 candidate is kept. -/
theorem searchRepositories_dedup_witness :
    mapRepoSummary { full_name := some (("o/r").data), stargazers_count := some 1 } =
      some { name := ("o/r").data, fullName := ("o/r").data, description := none,
             language := none, stars := 1, forks := 0, privateFlag := false,
             htmlUrl := ("https://github.com/o/r").data, defaultBranch := ("main").data,
             topics := [], visibility := none } ∧
    assocGet (addRepository none none none
        (addRepository none none none []
          { full_name := some (("o/r").data), stargazers_count := some 1 } 0)
        { full_name := some (("o/r").data), stargazers_count := some 500 } 1)
      (("o/r").data) =
      some { summary := { name := ("o/r").data, fullName := ("o/r").data,
                          description := none, language := none, stars := 1, forks := 0,
                          privateFlag := false, htmlUrl := ("https://github.com/o/r").data,
                          defaultBranch := ("main").data, topics := [], visibility := none },
             priority := 0, stars := 1, score := none } := by
  refine ⟨by decide, ?_⟩
  have h := searchRepositories_dedup none none none []
    { full_name := some (("o/r").data), stargazers_count := some 1 } 0
    { name := ("o/r").data, fullName := ("o/r").data, description := none,
      language := none, stars := 1, forks := 0, privateFlag := false,
      htmlUrl := ("https://github.com/o/r").data, defaultBranch := ("main").data,
      topics := [], visibility := none }
    (by decide) (by decide) (by decide) (by decide) (by decide)
  exact h.2.2 { full_name := some (("o/r").data), stargazers_count := some 500 }
    { name := ("o/r").data, fullName := ("o/r").data, description := none,
      language := none, stars := 500, forks := 0, privateFlag := false,
      htmlUrl := ("https://github.com/o/r").data, defaultBranch := ("main").data,
      topics := [], visibility := none }
    (by decide) (by decide) (by decide) (by decide) (by decide) (by decide)
    (by decide) (by decide)

/-! ## C4 -/

/-- C4: for match indices inside the file, `createSnippetsFromLines`
synthesizes exactly one snippet per match index — never merging them — and
the k-th snippet covers the 1-based lines `max(0, i - c) + 1` through
`min(n, i + c + 1)` of the file (natural subtraction is the clamped
`Math.max(0, i - c)`). -/
theorem searchCode_snippet_per_match (fileLines : List JSStr) (indices : List Nat)
    (c : Nat) (hin : ∀ i ∈ indices, i < fileLines.length) :
    (createSnippetsFromLines fileLines indices c).length = indices.length ∧
    ∀ k (hk : k < indices.length),
      (createSnippetsFromLines fileLines indices c).getD k ⟨0, 0, []⟩ =
        { startLine := (indices.get ⟨k, hk⟩ - c) + 1,
          endLine := min fileLines.length (indices.get ⟨k, hk⟩ + c + 1),
          lines := (fileLines.drop (indices.get ⟨k, hk⟩ - c)).take
            (min fileLines.length (indices.get ⟨k, hk⟩ + c + 1) -
              (indices.get ⟨k, hk⟩ - c)) } := by
  constructor
  · by_cases hemp : indices.isEmpty
    · have hnil : indices = [] := List.isEmpty_iff.mp hemp
      subst hnil
      simp [createSnippetsFromLines]
    · simp [createSnippetsFromLines, hemp]
  · intro k hk
    have hne : indices ≠ [] := by
      intro hnil; rw [hnil] at hk; exact absurd hk (by simp)
    have hemp : indices.isEmpty = false := by simp [hne]
    have hi : indices.get ⟨k, hk⟩ < fileLines.length :=
      hin _ (indices.get_mem k hk)
    unfold createSnippetsFromLines
    rw [if_neg (by simp [hemp])]
    have hk2 : k < (indices.map (fun index =>
        ({ startLine := (index - c) + 1,
           endLine := max ((index - c) + 1) (min fileLines.length (index + c + 1)),
           lines := (fileLines.drop (index - c)).take
             (min fileLines.length (index + c + 1) - (index - c)) } :
          CodeSearchSnippet))).length := by
      rw [List.length_map]; exact hk
    rw [List.getD_eq_getElem _ _ hk2, List.getElem_map]
    have hmax : max ((indices.get ⟨k, hk⟩ - c) + 1)
        (min fileLines.length (indices.get ⟨k, hk⟩ + c + 1)) =
        min fileLines.length (indices.get ⟨k, hk⟩ + c + 1) := by
      omega
    simp only [List.get_eq_getElem] at hmax ⊢
    rw [hmax]

/-- C4 witness: in an 8-line file, a match at 0-based index 3 with
context 2 yields one snippet of 1-based lines 2–6; context 0 yields
exactly line 4; context 5 yields the whole file. -/
theorem searchCode_snippet_per_match_witness :
    (∀ i ∈ [3], i < ([("l1").data, ("l2").data, ("l3").data, ("l4").data,
        ("l5").data, ("l6").data, ("l7").data, ("l8").data] : List JSStr).length) ∧
    ((createSnippetsFromLines [("l1").data, ("l2").data, ("l3").data, ("l4").data,
        ("l5").data, ("l6").data, ("l7").data, ("l8").data] [3] 2).length = 1 ∧
      ∀ k (hk : k < ([3] : List Nat).length),
        (createSnippetsFromLines [("l1").data, ("l2").data, ("l3").data, ("l4").data,
            ("l5").data, ("l6").data, ("l7").data, ("l8").data] [3] 2).getD k ⟨0, 0, []⟩ =
          { startLine := (([3] : List Nat).get ⟨k, hk⟩ - 2) + 1,
            endLine := min 8 (([3] : List Nat).get ⟨k, hk⟩ + 2 + 1),
            lines := (([("l1").data, ("l2").data, ("l3").data, ("l4").data,
                ("l5").data, ("l6").data, ("l7").data, ("l8").data] :
                List JSStr).drop (([3] : List Nat).get ⟨k, hk⟩ - 2)).take
              (min 8 (([3] : List Nat).get ⟨k, hk⟩ + 2 + 1) -
                (([3] : List Nat).get ⟨k, hk⟩ - 2)) }) ∧
    createSnippetsFromLines [("l1").data, ("l2").data, ("l3").data, ("l4").data,
        ("l5").data, ("l6").data, ("l7").data, ("l8").data] [3] 2 =
      [{ startLine := 2, endLine := 6,
         lines := [("l2").data, ("l3").data, ("l4").data, ("l5").data, ("l6").data] }] ∧
    createSnippetsFromLines [("l1").data, ("l2").data, ("l3").data, ("l4").data,
        ("l5").data, ("l6").data, ("l7").data, ("l8").data] [3] 0 =
      [{ startLine := 4, endLine := 4, lines := [("l4").data] }] ∧
    createSnippetsFromLines [("l1").data, ("l2").data, ("l3").data, ("l4").data,
        ("l5").data, ("l6").data, ("l7").data, ("l8").data] [3] 5 =
      [{ startLine := 1, endLine := 8,
         lines := [("l1").data, ("l2").data, ("l3").data, ("l4").data,
           ("l5").data, ("l6").data, ("l7").data, ("l8").data] }] :=
  ⟨by decide,
    searchCode_snippet_per_match [("l1").data, ("l2").data, ("l3").data, ("l4").data,
      ("l5").data, ("l6").data, ("l7").data, ("l8").data] [3] 2 (by decide),
    by decide, by decide, by decide⟩

/-! ## C5 -/

/-- UTF-8 byte count of a repeated character. -/
theorem utf8Length_replicate (n : Nat) (c : Char) :
    utf8Length (List.replicate n c) = n * c.utf8Size := by
  induction n with
  | zero => simp [utf8Length]
  | succ n ih =>
    rw [List.replicate_succ]
    unfold utf8Length
    rw [ih]
    ring

/-- C5: with no range, `readFile` fails with the size-guard error whenever
the decoded content exceeds 204800 bytes; with an explicit range it always
succeeds and returns the requested window. -/
theorem readFile_size_guard (content : JSStr) (options : ReadOptions) :
    (options.range = none → 204800 < utf8Length content →
      readFileCore content options =
        Except.error ⟨"File too large; use an explicit range to limit output."⟩) ∧
    (∀ r : ReadRange, options.range = some r →
      readFileCore content options = Except.ok
        { range := some r,
          lines :=
            if options.includeLineNumbers.getD false then
              addLineNumbers (extractRange (splitLines content) r) r.start
            else extractRange (splitLines content) r }) := by
  constructor
  · intro h1 h2
    unfold readFileCore
    rw [if_pos ⟨h1, h2⟩]
  · intro r hr
    unfold readFileCore
    rw [if_neg (by simp [hr])]
    rw [hr]

/-- C5 witness: 204801 bytes of `a` fail without a range and succeed with
range 1–2. -/
theorem readFile_size_guard_witness :
    readFileCore (List.replicate 204801 ('a')) { range := none } =
      Except.error ⟨"File too large; use an explicit range to limit output."⟩ ∧
    readFileCore (List.replicate 204801 ('a')) { range := some ⟨1, 2⟩ } =
      Except.ok { range := some ⟨1, 2⟩,
                  lines := extractRange (splitLines (List.replicate 204801 ('a'))) ⟨1, 2⟩ } := by
  constructor
  · exact (readFile_size_guard (List.replicate 204801 ('a')) { range := none }).1 rfl
      (by rw [utf8Length_replicate]; decide)
  · exact (readFile_size_guard (List.replicate 204801 ('a'))
      { range := some ⟨1, 2⟩ }).2 ⟨1, 2⟩ rfl

/-! ## C6 -/

/-- Walking the line numbers `s, s+1, …` and stopping at the end of the
file collects exactly the 0-based window `[s-1, s-1+cnt)` clipped to the
file. -/
theorem extract_go (lines : List JSStr) :
    ∀ (cnt s : Nat), 1 ≤ s →
      ((List.range' s cnt).takeWhile (fun ln => decide (ln - 1 < lines.length))).map
          (fun ln => lines.getD (ln - 1) []) =
        (lines.take (min (s - 1 + cnt) lines.length)).drop (s - 1) := by
  intro cnt
  induction cnt with
  | zero =>
    intro s hs
    simp only [List.range'_zero, List.takeWhile_nil, List.map_nil]
    symm
    apply List.drop_eq_nil_of_le
    simp only [List.length_take]
    omega
  | succ cnt ih =>
    intro s hs
    rw [List.range'_succ, List.takeWhile_cons]
    by_cases hlt : s - 1 < lines.length
    · rw [if_pos (by simpa using hlt), List.map_cons, ih (s + 1) (by omega)]
      rw [show s + 1 - 1 = s from by omega,
        show s - 1 + (cnt + 1) = s + cnt from by omega]
      have hlen : s - 1 < (lines.take (min (s + cnt) lines.length)).length := by
        simp only [List.length_take]
        omega
      rw [List.drop_eq_getElem_cons hlen]
      congr 1
      · rw [List.getElem_take, List.getD_eq_getElem lines [] hlt]
      · congr 1
        omega
    · rw [if_neg (by simpa using hlt)]
      simp only [List.map_nil]
      symm
      apply List.drop_eq_nil_of_le
      simp only [List.length_take]
      omega

/-- The source's `extractRange` returns exactly the 1-based inclusive lines
`start` through `min(end, n)`. -/
theorem extractRange_eq (lines : List JSStr) (r : ReadRange)
    (h1 : 1 ≤ r.start) (h2 : r.start ≤ r.stop) :
    extractRange lines r = (lines.take (min r.stop lines.length)).drop (r.start - 1) := by
  unfold extractRange
  rw [extract_go lines (r.stop + 1 - r.start) r.start h1,
    show r.start - 1 + (r.stop + 1 - r.start) = r.stop from by omega]

/-- C6: for `1 ≤ start ≤ end`, `readFile` with a range returns exactly the
lines `start` through `min(end, n)` — silently truncated, with no error —
and with line numbers enabled every returned line is prefixed by its
absolute line number right-aligned to width 6 followed by one space. -/
theorem readFile_range_round_trip (content : JSStr) (r : ReadRange)
    (h1 : 1 ≤ r.start) (h2 : r.start ≤ r.stop) :
    extractRange (splitLines content) r =
      ((splitLines content).take (min r.stop (splitLines content).length)).drop
        (r.start - 1) ∧
    readFileCore content { range := some r, includeLineNumbers := some true } =
      Except.ok { range := some r,
                  lines := addLineNumbers (extractRange (splitLines content) r) r.start } ∧
    (addLineNumbers (extractRange (splitLines content) r) r.start).length =
      (extractRange (splitLines content) r).length ∧
    ∀ k (hk : k < (extractRange (splitLines content) r).length),
      (addLineNumbers (extractRange (splitLines content) r) r.start).getD k [] =
        padStartChars (natToChars (r.start + k)) 6 (' ') ++
          (' ') :: (extractRange (splitLines content) r).get ⟨k, hk⟩ := by
  refine ⟨extractRange_eq (splitLines content) r h1 h2, ?_, ?_, ?_⟩
  · unfold readFileCore
    rw [if_neg (by simp)]
    rfl
  · simp [addLineNumbers, List.length_mapIdx]
  · intro k hk
    have hk2 : k < (addLineNumbers (extractRange (splitLines content) r) r.start).length := by
      simpa [addLineNumbers, List.length_mapIdx] using hk
    rw [List.getD_eq_getElem _ _ hk2]
    unfold addLineNumbers
    rw [List.getElem_mapIdx]
    simp [List.get_eq_getElem]

/-- C6 witness: a 3-line file read with range 2–3 and line numbers returns
exactly two lines with right-aligned number prefixes. -/
theorem readFile_range_round_trip_witness :
    (1 ≤ 2 ∧ 2 ≤ 3) ∧
    (extractRange (splitLines (("a\nb\nc").data)) ⟨2, 3⟩ =
      ((splitLines (("a\nb\nc").data)).take
        (min 3 (splitLines (("a\nb\nc").data)).length)).drop (2 - 1) ∧
    readFileCore (("a\nb\nc").data) { range := some ⟨2, 3⟩, includeLineNumbers := some true } =
      Except.ok { range := some ⟨2, 3⟩,
                  lines := addLineNumbers (extractRange (splitLines (("a\nb\nc").data)) ⟨2, 3⟩) 2 } ∧
    (addLineNumbers (extractRange (splitLines (("a\nb\nc").data)) ⟨2, 3⟩) 2).length =
      (extractRange (splitLines (("a\nb\nc").data)) ⟨2, 3⟩).length ∧
    ∀ k (hk : k < (extractRange (splitLines (("a\nb\nc").data)) ⟨2, 3⟩).length),
      (addLineNumbers (extractRange (splitLines (("a\nb\nc").data)) ⟨2, 3⟩) 2).getD k [] =
        padStartChars (natToChars (2 + k)) 6 (' ') ++
          (' ') :: (extractRange (splitLines (("a\nb\nc").data)) ⟨2, 3⟩).get ⟨k, hk⟩) ∧
    readFileCore (("a\nb\nc").data) { range := some ⟨2, 3⟩, includeLineNumbers := some true } =
      Except.ok { range := some ⟨2, 3⟩, lines := [("     2 b").data, ("     3 c").data] } :=
  ⟨⟨by decide, by decide⟩,
    readFile_range_round_trip (("a\nb\nc").data) ⟨2, 3⟩ (by decide) (by decide),
    by rfl⟩

/-! ## C7 -/

/-- C7: starting from a cache without the key, two sequential `globFiles`
calls with identical `(repo, ref, pattern)` issue exactly one tree fetch —
the first call fetches, the second is served from the cache — and both
calls return the same successful result. -/
theorem globFiles_idempotent_cache (matcher : JSStr → JSStr → Bool)
    (env : RepoTarget → JSStr → GitHubTreeResponse)
    (cache0 : List (JSStr × TreeCacheEntry)) (repo : RepoTarget)
    (pattern ref : JSStr)
    (hmiss : assocGet cache0 (globCacheKey repo ref pattern) = none)
    (htree : (env repo ref).tree ≠ none) :
    (globFiles matcher env cache0 repo pattern ref).2.2 = 1 ∧
    (globFiles matcher env (globFiles matcher env cache0 repo pattern ref).2.1
      repo pattern ref).2.2 = 0 ∧
    (globFiles matcher env (globFiles matcher env cache0 repo pattern ref).2.1
      repo pattern ref).1 = (globFiles matcher env cache0 repo pattern ref).1 ∧
    ∃ g, (globFiles matcher env cache0 repo pattern ref).1 = Except.ok g := by
  obtain ⟨entries, he⟩ := Option.ne_none_iff_exists'.mp htree
  refine ⟨?_, ?_, ?_, ?_⟩ <;>
    simp only [globFiles, hmiss, he, assocGet_assocSet_self]
  · exact ⟨_, rfl⟩

/-- C7 witness: a two-call run over a one-blob tree from the empty cache. -/
theorem globFiles_idempotent_cache_witness :
    assocGet ([] : List (JSStr × TreeCacheEntry))
      (globCacheKey ⟨("o").data, ("r").data⟩ (("main").data) (("*").data)) = none ∧
    (globFiles (fun _ _ => true)
        (fun _ _ => { tree := some [{ path := ("f.ts").data, type := ("blob").data }] })
        [] ⟨("o").data, ("r").data⟩ (("*").data) (("main").data)).2.2 = 1 ∧
    (globFiles (fun _ _ => true)
        (fun _ _ => { tree := some [{ path := ("f.ts").data, type := ("blob").data }] })
        (globFiles (fun _ _ => true)
          (fun _ _ => { tree := some [{ path := ("f.ts").data, type := ("blob").data }] })
          [] ⟨("o").data, ("r").data⟩ (("*").data) (("main").data)).2.1
        ⟨("o").data, ("r").data⟩ (("*").data) (("main").data)).2.2 = 0 := by
  have h := globFiles_idempotent_cache (fun _ _ => true)
    (fun _ _ => { tree := some [{ path := ("f.ts").data, type := ("blob").data }] })
    [] ⟨("o").data, ("r").data⟩ (("*").data) (("main").data) rfl (by simp)
  exact ⟨rfl, h.1, h.2.1⟩

/-! ## C8 -/

/-- C8: every validation error precedes any network request: `parseRepo`
rejects every slug that does not split on `/` into exactly two non-empty
parts; `compareCommits` with an empty base or head fails with zero requests
issued; `searchCode` with a pattern that trims to empty fails with zero
requests issued. -/
theorem validation_before_network :
    (∀ slug : JSStr,
      (¬ ∃ a b : JSStr, jsSplitOnChar ('/') slug = [a, b] ∧ a ≠ [] ∧ b ≠ []) →
      ∃ e, parseRepo slug = Except.error e) ∧
    (∀ (env : RepoTarget → JSStr → JSStr → GitHubCompareResponse) (repo : RepoTarget)
        (base head : JSStr) (options : CompareOptions),
      base = [] ∨ head = [] →
      ∃ e, compareCommits env repo base head options = (Except.error e, 0)) ∧
    (∀ (searchEnv : JSStr → Nat → Nat → List GitHubCodeSearchItem)
        (blobEnv : JSStr → JSStr → Except ViewerError (List JSStr))
        (repo : RepoTarget) (options : CodeSearchOptions),
      jsTrim options.pattern = [] →
      ∃ e, searchCode searchEnv blobEnv repo options = (Except.error e, 0)) := by
  refine ⟨?_, ?_, ?_⟩
  · intro slug hno
    unfold parseRepo
    rcases hsplit : jsSplitOnChar ('/') slug with _ | ⟨a, _ | ⟨b, _ | ⟨c, rest⟩⟩⟩
    · exact ⟨_, rfl⟩
    · exact ⟨_, rfl⟩
    · by_cases hab : a.isEmpty || b.isEmpty
      · refine ⟨⟨"Invalid repo slug. Use owner/name."⟩, ?_⟩
        show (if (a.isEmpty || b.isEmpty) = true then
            Except.error (ViewerError.mk ("Invalid repo slug. Use owner/name."))
          else Except.ok ({ owner := a, repo := b } : RepoTarget)) =
          Except.error ⟨"Invalid repo slug. Use owner/name."⟩
        rw [if_pos hab]
      · exfalso
        apply hno
        refine ⟨a, b, hsplit, ?_, ?_⟩
        · intro h
          subst h
          simp at hab
        · intro h
          subst h
          simp at hab
    · exact ⟨_, rfl⟩
  · intro env repo base head options h
    unfold compareCommits
    rcases h with hb | hh
    · subst hb
      exact ⟨_, rfl⟩
    · subst hh
      by_cases hbb : base.isEmpty
      · rw [if_pos hbb]
        exact ⟨_, rfl⟩
      · rw [if_neg hbb]
        exact ⟨_, rfl⟩
  · intro searchEnv blobEnv repo options h
    unfold searchCode
    rw [h]
    exact ⟨_, rfl⟩

/-- C8 witness: slug `acme` (no slash), an empty head for compare, and a
whitespace-only code-search pattern. -/
theorem validation_before_network_witness :
    (¬ ∃ a b : JSStr, jsSplitOnChar ('/') (("acme").data) = [a, b] ∧ a ≠ [] ∧ b ≠ []) ∧
    (∃ e, parseRepo (("acme").data) = Except.error e) ∧
    (∃ e, compareCommits (fun _ _ _ => {}) ⟨("o").data, ("r").data⟩ (("base").data) [] {} =
      (Except.error e, 0)) ∧
    (∃ e, searchCode (fun _ _ _ => []) (fun _ _ => Except.error ⟨"boom"⟩)
        ⟨("o").data, ("r").data⟩ { pattern := ("   ").data } = (Except.error e, 0)) := by
  have hno : ¬ ∃ a b : JSStr, jsSplitOnChar ('/') (("acme").data) = [a, b] ∧ a ≠ [] ∧ b ≠ [] := by
    rintro ⟨a, b, hab, -, -⟩
    rw [show jsSplitOnChar ('/') (("acme").data) = [("acme").data] from rfl] at hab
    exact absurd hab (by simp)
  refine ⟨hno, validation_before_network.1 (("acme").data) hno,
    validation_before_network.2.1 (fun _ _ _ => {}) ⟨("o").data, ("r").data⟩
      (("base").data) [] {} (Or.inr rfl),
    validation_before_network.2.2 (fun _ _ _ => []) (fun _ _ => Except.error ⟨"boom"⟩)
      ⟨("o").data, ("r").data⟩ { pattern := ("   ").data } rfl⟩

/-! ## C9 -/

/-- C9: for every compare payload, the per-file records of a successful
`compareCommits` omit the patch when `includePatches` is false or unset —
even when the remote supplied patch text — and carry the remote patch
verbatim when it is true. -/
theorem compareCommits_patch_suppression
    (env : RepoTarget → JSStr → JSStr → GitHubCompareResponse) (repo : RepoTarget)
    (base head : JSStr) (options : CompareOptions)
    (hb : base ≠ []) (hh : head ≠ []) :
    ∃ result, compareCommits env repo base head options = (Except.ok result, 1) ∧
      result.files.length = ((env repo base head).files.getD []).length ∧
      ∀ k (hk : k < ((env repo base head).files.getD []).length),
        (result.files.getD k { sha := none, filename := [], status := [],
                               additions := 0, deletions := 0, changes := 0,
                               patch := none, previousFilename := none }).patch =
          if options.includePatches.getD false then
            (((env repo base head).files.getD []).get ⟨k, hk⟩).patch
          else none := by
  have hbe : base.isEmpty = false := by
    cases base with
    | nil => exact absurd rfl hb
    | cons c t => rfl
  have hhe : head.isEmpty = false := by
    cases head with
    | nil => exact absurd rfl hh
    | cons c t => rfl
  refine ⟨{ base := base, head := head,
            aheadBy := (env repo base head).ahead_by.getD 0,
            behindBy := (env repo base head).behind_by.getD 0,
            totalCommits := (env repo base head).total_commits.getD
              (((env repo base head).commits.getD []).length),
            files := ((env repo base head).files.getD []).map (fun file =>
              { sha := file.sha, filename := file.filename, status := file.status,
                additions := file.additions, deletions := file.deletions,
                changes := file.changes,
                patch := if options.includePatches.getD false then file.patch else none,
                previousFilename := file.previous_filename }) }, ?_, ?_, ?_⟩
  · unfold compareCommits
    rw [if_neg (by simp [hbe]), if_neg (by simp [hhe])]
  · simp [List.length_map]
  · intro k hk
    have hk2 : k < (((env repo base head).files.getD []).map (fun file =>
        ({ sha := file.sha, filename := file.filename, status := file.status,
           additions := file.additions, deletions := file.deletions,
           changes := file.changes,
           patch := if options.includePatches.getD false then file.patch else none,
           previousFilename := file.previous_filename } : CompareFileChange))).length := by
      rw [List.length_map]
      exact hk
    rw [List.getD_eq_getElem _ _ hk2, List.getElem_map]
    simp [List.get_eq_getElem]

/-- C9 witness: a payload whose single file carries patch text, compared
once with `includePatches` unset and once with it set. -/
theorem compareCommits_patch_suppression_witness :
    (("b").data ≠ ([] : JSStr)) ∧ (("h").data ≠ ([] : JSStr)) ∧
    (∃ result, compareCommits
        (fun _ _ _ => { files := some [{ filename := ("f").data,
                                         status := ("modified").data, additions := 1,
                                         deletions := 0, changes := 1,
                                         patch := some (("@@ -1 +1 @@").data) }] })
        ⟨("o").data, ("r").data⟩ (("b").data) (("h").data)
        { includePatches := some false } = (Except.ok result, 1) ∧
      result.files.length = 1 ∧
      ∀ k (hk : k < 1),
        (result.files.getD k { sha := none, filename := [], status := [],
                               additions := 0, deletions := 0, changes := 0,
                               patch := none, previousFilename := none }).patch =
          if (false : Bool) then
            (([{ filename := ("f").data, status := ("modified").data, additions := 1,
                 deletions := 0, changes := 1,
                 patch := some (("@@ -1 +1 @@").data) }] :
              List GitHubCompareFile).get ⟨k, hk⟩).patch
          else none) := by
  refine ⟨by simp, by simp, ?_⟩
  have h := compareCommits_patch_suppression
    (fun _ _ _ => { files := some [{ filename := ("f").data,
                                     status := ("modified").data, additions := 1,
                                     deletions := 0, changes := 1,
                                     patch := some (("@@ -1 +1 @@").data) }] })
    ⟨("o").data, ("r").data⟩ (("b").data) (("h").data)
    { includePatches := some false } (by simp) (by simp)
  simpa using h

/-! ## C10 -/

/-- The normalized limit never exceeds the cap when the fallback is within
the cap. -/
theorem normalizeLimit_le (lim : Option JsNum) (fb mx : Nat) (h : fb ≤ mx) :
    normalizeLimit lim fb mx ≤ mx := by
  cases lim with
  | none => exact h
  | some j =>
    cases j with
    | nan => exact h
    | num q =>
      by_cases hq : q ≤ 0
      · simpa [normalizeLimit, hq] using h
      · simp only [normalizeLimit, hq, if_false]
        exact Nat.min_le_right _ _

/-- Folding the per-item reconstruction step appends exactly one prepared
result per retained item. -/
theorem searchCode_fold_length (blobEnv : JSStr → JSStr → Except ViewerError (List JSStr))
    (repo : RepoTarget) (context : Option Nat) (items : List GitHubCodeSearchItem) :
    ∀ acc : List CodeSearchResultItem × List (JSStr × List JSStr) × Nat,
      ((items.foldl (searchCodeStep blobEnv repo context) acc).1).length =
        acc.1.length + items.length := by
  induction items with
  | nil => intro acc; simp
  | cons item rest ih =>
    intro acc
    rw [List.foldl_cons, ih]
    have hlen : (searchCodeStep blobEnv repo context acc item).1.length =
        acc.1.length + 1 := by
      unfold searchCodeStep
      simp
    rw [hlen, List.length_cons]
    omega

/-- C10: the effective limit is `min(floor(limit), 100)` for a positive
limit and the fallback (30 for repository/code search, 50 for commit
search) when the limit is missing, NaN, or non-positive; consequently
none of the three search operations ever returns more than 100 items. -/
theorem effective_limit_cap :
    (∀ q : ℚ, 0 < q → normalizeLimit (some (JsNum.num q)) 30 100 = min (⌊q⌋).toNat 100) ∧
    (∀ q : ℚ, 0 < q → normalizeLimit (some (JsNum.num q)) 50 100 = min (⌊q⌋).toNat 100) ∧
    normalizeLimit none 30 100 = 30 ∧
    normalizeLimit (some JsNum.nan) 30 100 = 30 ∧
    (∀ q : ℚ, q ≤ 0 → normalizeLimit (some (JsNum.num q)) 30 100 = 30) ∧
    normalizeLimit none 50 100 = 50 ∧
    normalizeLimit (some JsNum.nan) 50 100 = 50 ∧
    (∀ q : ℚ, q ≤ 0 → normalizeLimit (some (JsNum.num q)) 50 100 = 50) ∧
    (∀ params feed, (searchRepositoriesMerge params feed).length ≤ 100) ∧
    (∀ (searchEnv : JSStr → Nat → Nat → List GitHubCodeSearchItem)
        (blobEnv : JSStr → JSStr → Except ViewerError (List JSStr))
        (repo : RepoTarget) (options : CodeSearchOptions) (l : List CodeSearchResultItem),
      (searchCode searchEnv blobEnv repo options).1 = Except.ok l → l.length ≤ 100) ∧
    (∀ (env : JSStr → Nat → Nat → List GitHubCommitSearchItem) (repo : RepoTarget)
        (options : CommitSearchOptions),
      (searchCommits env repo options).1.length ≤ 100) := by
  refine ⟨?_, ?_, rfl, rfl, ?_, rfl, rfl, ?_, ?_, ?_, ?_⟩
  · intro q hq
    simp [normalizeLimit, not_le.mpr hq]
  · intro q hq
    simp [normalizeLimit, not_le.mpr hq]
  · intro q hq
    simp [normalizeLimit, hq]
  · intro q hq
    simp [normalizeLimit, hq]
  · intro params feed
    rw [searchRepositoriesMerge_length]
    exact le_trans (Nat.min_le_left _ _) (normalizeLimit_le _ _ _ (by norm_num))
  · intro searchEnv blobEnv repo options l h
    simp only [searchCode] at h
    split at h
    · simp at h
    · split at h
      · rw [Except.ok.injEq] at h
        subst h
        simp
      · rw [Except.ok.injEq] at h
        subst h
        rw [searchCode_fold_length]
        simp only [List.length_nil, Nat.zero_add, List.length_take]
        exact le_trans (Nat.min_le_left _ _) (normalizeLimit_le _ _ _ (by norm_num))
  · intro env repo options
    simp only [searchCommits, List.length_map, List.length_take]
    exact le_trans (Nat.min_le_left _ _) (normalizeLimit_le _ _ _ (by norm_num))

/-- C10 witness: a requested limit of 250 is capped to 100; the commit
default is 50; a concrete commit search returns at most 100 items. -/
theorem effective_limit_cap_witness :
    (0 < (250 : ℚ)) ∧
    normalizeLimit (some (JsNum.num 250)) 30 100 = 100 ∧
    normalizeLimit none 50 100 = 50 ∧
    (searchCommits (fun _ _ _ => []) ⟨("o").data, ("r").data⟩ {}).1.length ≤ 100 := by
  refine ⟨by norm_num, ?_, effective_limit_cap.2.2.2.2.2.1,
    effective_limit_cap.2.2.2.2.2.2.2.2.2.2 (fun _ _ _ => [])
      ⟨("o").data, ("r").data⟩ {}⟩
  rw [effective_limit_cap.1 250 (by norm_num)]
  norm_num

/-! ## C3 -/

/-- Search relevance score of a candidate, 0 when absent. -/
def scoreOf (c : Candidate) : ℚ :=
  c.score.getD 0

/-- The total order stated by the specification: priority ascending, then
star count descending, then relevance score (0 when absent) descending,
then full name lexicographically ascending. -/
def specLe (a b : Candidate) : Prop :=
  a.priority < b.priority ∨ (a.priority = b.priority ∧
    (b.stars < a.stars ∨ (a.stars = b.stars ∧
      (scoreOf b < scoreOf a ∨ (scoreOf a = scoreOf b ∧
        (a.summary.fullName = b.summary.fullName ∨
          List.Lex (fun x y : Char => x < y) a.summary.fullName b.summary.fullName))))))

/-- Reversing the arguments of the three-way comparison negates it. -/
theorem lci_antisymm : ∀ a b : JSStr, listCompareInt b a = -listCompareInt a b := by
  intro a
  induction a with
  | nil =>
    intro b
    cases b <;> simp [listCompareInt]
  | cons x as ih =>
    intro b
    cases b with
    | nil => simp [listCompareInt]
    | cons y bs =>
      by_cases h1 : x < y
      · simp [listCompareInt, h1, lt_asymm h1]
      · by_cases h2 : y < x
        · simp [listCompareInt, h1, h2]
        · simp [listCompareInt, h1, h2, ih bs]

/-- The three-way comparison is non-positive exactly when the first string
is lexicographically at most the second. -/
theorem lci_nonpos_iff : ∀ a b : JSStr,
    listCompareInt a b ≤ 0 ↔
      (a = b ∨ List.Lex (fun x y : Char => x < y) a b) := by
  intro a
  induction a with
  | nil =>
    intro b
    cases b with
    | nil =>
      constructor
      · intro _; exact Or.inl rfl
      · intro _; simp [listCompareInt]
    | cons y bs =>
      constructor
      · intro _; exact Or.inr List.Lex.nil
      · intro _; simp [listCompareInt]
  | cons x as ih =>
    intro b
    cases b with
    | nil =>
      constructor
      · intro h
        exfalso
        simp [listCompareInt] at h
      · rintro (h | h)
        · exact absurd h (by simp)
        · cases h
    | cons y bs =>
      rcases lt_trichotomy x y with h1 | h1 | h1
      · constructor
        · intro _; exact Or.inr (List.Lex.rel h1)
        · intro _; simp [listCompareInt, h1]
      · subst h1
        have hni : ¬x < x := lt_irrefl x
        constructor
        · intro h
          have h2 : listCompareInt as bs ≤ 0 := by
            simpa [listCompareInt, hni] using h
          rcases (ih bs).mp h2 with he | hl
          · exact Or.inl (by rw [he])
          · exact Or.inr (List.Lex.cons hl)
        · rintro (he | hl)
          · have has : as = bs := by injection he
            have := (ih bs).mpr (Or.inl has)
            simpa [listCompareInt, hni] using this
          · have hl2 : List.Lex (fun u v : Char => u < v) as bs :=
              List.Lex.cons_iff.mp hl
            have := (ih bs).mpr (Or.inr hl2)
            simpa [listCompareInt, hni] using this
      · constructor
        · intro h
          exfalso
          simp [listCompareInt, lt_asymm h1, h1] at h
        · rintro (he | hl)
          · exfalso
            injection he with hxy _
            exact absurd hxy (ne_of_gt h1)
          · exfalso
            cases hl with
            | rel h => exact absurd h (lt_asymm h1)
            | cons h => exact absurd h1 (lt_irrefl _)

/-- The source comparator is non-positive exactly when the specification's
order relation holds. -/
theorem compareCandidates_nonpos_iff (a b : Candidate) :
    compareCandidates a b ≤ 0 ↔ specLe a b := by
  simp only [compareCandidates, specLe, scoreOf]
  by_cases h1 : a.priority = b.priority
  · rw [if_neg (by simp [h1])]
    by_cases h2 : b.stars = a.stars
    · rw [if_neg (by simp [h2])]
      by_cases h3 : (b.score.getD 0 : ℚ) = (a.score.getD 0 : ℚ)
      · rw [if_neg (by simp [h3])]
        rw [Int.cast_nonpos, lci_nonpos_iff]
        simp [h1, h2, h3, lt_irrefl]
      · rw [if_pos h3, sub_nonpos]
        constructor
        · intro h
          exact Or.inr ⟨h1, Or.inr ⟨h2.symm, Or.inl (lt_of_le_of_ne h h3)⟩⟩
        · rintro (h | ⟨-, h | ⟨-, h | ⟨heq, -⟩⟩⟩)
          · exfalso; rw [h1] at h; exact absurd h (lt_irrefl _)
          · exfalso; rw [h2] at h; exact absurd h (lt_irrefl _)
          · exact le_of_lt h
          · exact le_of_eq heq.symm
    · rw [if_pos h2, sub_nonpos, Nat.cast_le]
      constructor
      · intro h
        exact Or.inr ⟨h1, Or.inl (lt_of_le_of_ne h h2)⟩
      · rintro (h | ⟨-, h | ⟨heq, -⟩⟩)
        · exfalso; rw [h1] at h; exact absurd h (lt_irrefl _)
        · exact le_of_lt h
        · exact le_of_eq heq.symm
  · rw [if_pos h1, sub_nonpos, Nat.cast_le]
    constructor
    · intro h
      exact Or.inl (lt_of_le_of_ne h h1)
    · rintro (h | ⟨heq, -⟩)
      · exact le_of_lt h
      · exact absurd heq h1

/-- The specification order is transitive. -/
theorem specLe_trans (a b c : Candidate) (hab : specLe a b) (hbc : specLe b c) :
    specLe a c := by
  unfold specLe at hab hbc ⊢
  rcases hab with h1 | ⟨e1, hab⟩
  · rcases hbc with h2 | ⟨e2, -⟩
    · exact Or.inl (lt_trans h1 h2)
    · exact Or.inl (by omega)
  · rcases hbc with h2 | ⟨e2, hbc⟩
    · exact Or.inl (by omega)
    · refine Or.inr ⟨e1.trans e2, ?_⟩
      rcases hab with h1 | ⟨f1, hab⟩
      · rcases hbc with h2 | ⟨f2, -⟩
        · exact Or.inl (lt_trans h2 h1)
        · exact Or.inl (by omega)
      · rcases hbc with h2 | ⟨f2, hbc⟩
        · exact Or.inl (by omega)
        · refine Or.inr ⟨f1.trans f2, ?_⟩
          rcases hab with h1 | ⟨g1, hab⟩
          · rcases hbc with h2 | ⟨g2, -⟩
            · exact Or.inl (lt_trans h2 h1)
            · exact Or.inl (by rw [← g2]; exact h1)
          · rcases hbc with h2 | ⟨g2, hbc⟩
            · exact Or.inl (by rw [g1]; exact h2)
            · refine Or.inr ⟨g1.trans g2, ?_⟩
              rcases hab with he1 | hl1
              · rcases hbc with he2 | hl2
                · exact Or.inl (he1.trans he2)
                · exact Or.inr (by rw [he1]; exact hl2)
              · rcases hbc with he2 | hl2
                · exact Or.inr (by rw [← he2]; exact hl1)
                · exact Or.inr (IsTrans.trans _ _ _ hl1 hl2)

/-- The specification order is total. -/
theorem specLe_total (a b : Candidate) : specLe a b ∨ specLe b a := by
  unfold specLe
  rcases Nat.lt_trichotomy a.priority b.priority with h1 | h1 | h1
  · exact Or.inl (Or.inl h1)
  · rcases Nat.lt_trichotomy a.stars b.stars with h2 | h2 | h2
    · exact Or.inr (Or.inr ⟨h1.symm, Or.inl h2⟩)
    · rcases lt_trichotomy (scoreOf a) (scoreOf b) with h3 | h3 | h3
      · exact Or.inr (Or.inr ⟨h1.symm, Or.inr ⟨h2.symm, Or.inl h3⟩⟩)
      · rcases trichotomous_of (List.Lex (fun x y : Char => x < y))
          a.summary.fullName b.summary.fullName with h4 | h4 | h4
        · exact Or.inl (Or.inr ⟨h1, Or.inr ⟨h2, Or.inr ⟨h3, Or.inr h4⟩⟩⟩)
        · exact Or.inl (Or.inr ⟨h1, Or.inr ⟨h2, Or.inr ⟨h3, Or.inl h4⟩⟩⟩)
        · exact Or.inr (Or.inr ⟨h1.symm, Or.inr ⟨h2.symm, Or.inr ⟨h3.symm, Or.inr h4⟩⟩⟩)
      · exact Or.inl (Or.inr ⟨h1, Or.inr ⟨h2, Or.inl h3⟩⟩)
    · exact Or.inl (Or.inr ⟨h1, Or.inl h2⟩)
  · exact Or.inr (Or.inl h1)

/-- The comparator-induced boolean relation is transitive. -/
theorem candLe_trans (a b c : Candidate) (h1 : candLe a b = true)
    (h2 : candLe b c = true) : candLe a c = true := by
  unfold candLe at h1 h2 ⊢
  rw [decide_eq_true_eq] at h1 h2 ⊢
  rw [compareCandidates_nonpos_iff] at h1 h2 ⊢
  exact specLe_trans a b c h1 h2

/-- The comparator-induced boolean relation is total. -/
theorem candLe_total (a b : Candidate) : (candLe a b || candLe b a) = true := by
  rw [Bool.or_eq_true]
  unfold candLe
  rw [decide_eq_true_eq, decide_eq_true_eq,
    compareCandidates_nonpos_iff, compareCandidates_nonpos_iff]
  exact specLe_total a b

/-- C3: `searchRepositories` returns exactly the `[offset, offset+limit)`
slice of the merged candidate set arranged in a list totally ordered by the
specification's order (priority ascending, stars descending, score
descending with 0 for absent, full name lexicographically ascending); in
particular any two equal-priority entries with distinct star counts appear
in descending star order. -/
theorem searchRepositories_sorted_slice (params : RepositorySearchParams)
    (feed : List (GitHubRepoSummary × Nat)) :
    ∃ sorted : List Candidate,
      sorted.Perm ((collectedMap (params.pattern.map jsTrim)
        (params.organization.map jsTrim) (params.language.map jsTrim) feed).map
        (fun e => e.2)) ∧
      List.Pairwise specLe sorted ∧
      searchRepositoriesMerge params feed =
        ((sorted.drop (normalizeOffset params.offset)).take
          (normalizeLimit params.limit 30 100)).map (fun c => c.summary) ∧
      (∀ i j (hi : i < sorted.length) (hj : j < sorted.length), i < j →
        (sorted.get ⟨i, hi⟩).priority = (sorted.get ⟨j, hj⟩).priority →
        (sorted.get ⟨i, hi⟩).stars ≠ (sorted.get ⟨j, hj⟩).stars →
        (sorted.get ⟨j, hj⟩).stars < (sorted.get ⟨i, hi⟩).stars) := by
  refine ⟨((collectedMap (params.pattern.map jsTrim) (params.organization.map jsTrim)
      (params.language.map jsTrim) feed).map (fun e => e.2)).mergeSort candLe,
    List.mergeSort_perm _ _, ?_, ?_, ?_⟩
  · have h := List.sorted_mergeSort candLe_trans candLe_total
      ((collectedMap (params.pattern.map jsTrim) (params.organization.map jsTrim)
        (params.language.map jsTrim) feed).map (fun e => e.2))
    exact h.imp (fun hx =>
      (compareCandidates_nonpos_iff _ _).mp (of_decide_eq_true hx))
  · rfl
  · intro i j hi hj hij hpri hstars
    have hpw := List.sorted_mergeSort candLe_trans candLe_total
      ((collectedMap (params.pattern.map jsTrim) (params.organization.map jsTrim)
        (params.language.map jsTrim) feed).map (fun e => e.2))
    have hrel := List.pairwise_iff_get.mp hpw ⟨i, hi⟩ ⟨j, hj⟩ hij
    have hspec : specLe (List.get _ ⟨i, hi⟩) (List.get _ ⟨j, hj⟩) :=
      (compareCandidates_nonpos_iff _ _).mp (of_decide_eq_true hrel)
    unfold specLe at hspec
    rcases hspec with h | ⟨-, h | ⟨he, -⟩⟩
    · exact absurd hpri (by omega)
    · exact h
    · exact absurd he (fun hh => hstars hh)

/-- C3 witness: the sorted-slice decomposition at empty parameters and an
empty feed. -/
theorem searchRepositories_sorted_slice_witness :
    ∃ sorted : List Candidate,
      sorted.Perm ((collectedMap none none none []).map (fun e => e.2)) ∧
      List.Pairwise specLe sorted ∧
      searchRepositoriesMerge {} [] =
        ((sorted.drop (normalizeOffset none)).take
          (normalizeLimit none 30 100)).map (fun c => c.summary) ∧
      (∀ i j (hi : i < sorted.length) (hj : j < sorted.length), i < j →
        (sorted.get ⟨i, hi⟩).priority = (sorted.get ⟨j, hj⟩).priority →
        (sorted.get ⟨i, hi⟩).stars ≠ (sorted.get ⟨j, hj⟩).stars →
        (sorted.get ⟨j, hj⟩).stars < (sorted.get ⟨i, hi⟩).stars) :=
  searchRepositories_sorted_slice {} []

end GhViewer
